import Mathlib

/-!
Verification of the register-field arithmetic of the ruspiro-mmio-register
crate (src/lib.rs), shallowly embedded over natural numbers.

A register of underlying type `T` (one of u8, u16, u32, u64) is modelled as
a natural number below `2 ^ w`, where `w` is the bit width of `T`.  The
volatile load/store pair is modelled by explicit state passing: an
operation that stores to the register returns the new register content.
Rust's wrapping left shift on a `w`-bit value is modelled by shifting and
truncating to the low `w` bits; the claims only exercise it for shift
amounts below `w`, the range where Rust defines it.
-/

set_option linter.unusedVariables false

namespace MMIO

/-- Bit widths of the four types carrying the RegisterType trait
(u8, u16, u32, u64), from `registertype_impl![u8, u16, u32, u64]`. -/
def registerTypeWidths : List Nat := [8, 16, 32, 64]

/-- Left shift of a `w`-bit unsigned value, truncated to `w` bits.  This is
Rust's `x << s` on `uw` for `s < w` (for `s ≥ w` Rust's plain shift is an
arithmetic overflow and never produces a value; the claims below restrict
to valid fields where this does not occur). -/
def shlW (w x s : Nat) : Nat := (x <<< s) % 2 ^ w

/-- Rust's `x.checked_shl(s).unwrap_or(0)` on a `w`-bit unsigned value:
zero as soon as the shift amount reaches the bit width, the in-type
(truncated) shift otherwise. -/
def checkedShl (w x s : Nat) : Nat := if s < w then shlW w x s else 0

/-- Bitwise complement `!x` on a `w`-bit unsigned value. -/
def notW (w x : Nat) : Nat := (2 ^ w - 1) ^^^ x

/-- RegisterField from src/lib.rs: an unshifted field `mask` and the bit
`shift` of the field's least significant bit. -/
structure RegisterField where
  mask : Nat
  shift : Nat
deriving Repr, DecidableEq

/-- RegisterField::new — stores mask and shift unchanged. -/
def RegisterField.new (mask shift : Nat) : RegisterField := ⟨mask, shift⟩

/-- Rust's `as u32` cast of the shift amount: wraps modulo `2 ^ 32`.  For
the register types themselves (widths 8 to 64) a stored shift below the
width is unchanged by the cast; a shift of `2 ^ 32` or more wraps. -/
def asU32 (s : Nat) : Nat := s % 2 ^ 32

/-- RegisterField::mask() — `self.mask.checked_shl(self.shift as u32).unwrap_or(0)`,
the mask positioned at the field's bit offset; the shift amount passes
through the `as u32` cast before checked_shl. -/
def RegisterField.posMask (w : Nat) (f : RegisterField) : Nat :=
  checkedShl w f.mask (asU32 f.shift)

/-- Width of a mask in bits (position of the highest set bit plus one);
used to state the documented well-formedness `shift + width(mask) ≤ w`. -/
def maskWidth (m : Nat) : Nat := Nat.size m

/-- validFor w f — the documented well-formedness of a field for a `w`-bit
register: `shift + width(mask) ≤ w`. -/
def RegisterField.validFor (w : Nat) (f : RegisterField) : Prop :=
  f.shift + maskWidth f.mask ≤ w

/-- RegisterFieldValue from src/lib.rs: a field together with a stored
value.  The `value` projection is the accessor `value()` (it returns the
stored value unchanged). -/
structure RegisterFieldValue where
  field : RegisterField
  value : Nat
deriving Repr, DecidableEq

/-- RegisterFieldValue::new — stores the field and `value & field.mask`. -/
def RegisterFieldValue.new (f : RegisterField) (value : Nat) : RegisterFieldValue :=
  ⟨f, value &&& f.mask⟩

/-- RegisterFieldValue::raw_value() —
`self.value.checked_shl(self.field.shift as u32).unwrap_or(0)`; the shift
amount passes through the `as u32` cast before checked_shl. -/
def RegisterFieldValue.raw_value (w : Nat) (fv : RegisterFieldValue) : Nat :=
  checkedShl w fv.value (asU32 fv.field.shift)

/-- RegisterFieldValue::mask() — delegates to the field's positioned mask. -/
def RegisterFieldValue.posMask (w : Nat) (fv : RegisterFieldValue) : Nat :=
  fv.field.posMask w

/-- BitOr for RegisterFieldValue: synthetic field with the union of both
positioned masks at shift 0, value the OR of both raw values. -/
def RegisterFieldValue.bitor (w : Nat) (a b : RegisterFieldValue) : RegisterFieldValue :=
  ⟨RegisterField.new (a.field.posMask w ||| b.field.posMask w) 0,
   a.raw_value w ||| b.raw_value w⟩

/-- BitAnd for RegisterFieldValue: synthetic field with the intersection of
both positioned masks at shift 0, value the AND of both raw values. -/
def RegisterFieldValue.bitand (w : Nat) (a b : RegisterFieldValue) : RegisterFieldValue :=
  ⟨RegisterField.new (a.field.posMask w &&& b.field.posMask w) 0,
   a.raw_value w &&& b.raw_value w⟩

/-- read(field) of the access structs: `(val >> field.shift) & field.mask`
where `val = self.get()` is the volatile load, here the register content
`reg`. -/
def regRead (reg : Nat) (f : RegisterField) : Nat :=
  (reg >>> f.shift) &&& f.mask

/-- read_value(field): the RegisterFieldValue holding `read(field)`. -/
def regReadValue (reg : Nat) (f : RegisterField) : RegisterFieldValue :=
  ⟨f, regRead reg f⟩

/-- write(field, value) of WriteOnly and ReadWrite: stores
`(value & field.mask) << field.shift` via `set`; the result is the new
register content (independent of the previous content). -/
def regWrite (w : Nat) (f : RegisterField) (value : Nat) : Nat :=
  shlW w (value &&& f.mask) f.shift

/-- write_value(fieldvalue): `write(fieldvalue.field, fieldvalue.value)`. -/
def regWriteValue (w : Nat) (fv : RegisterFieldValue) : Nat :=
  regWrite w fv.field fv.value

/-- modify(field, value) of ReadWrite: reads `old_val = reg`, computes
`new_val = (old_val & !(mask << shift)) | ((value & mask) << shift)`,
stores it and returns it.  The pair is (stored register content, returned
value). -/
def regModify (w reg : Nat) (f : RegisterField) (value : Nat) : Nat × Nat :=
  let old_val := reg
  let new_val :=
    (old_val &&& notW w (shlW w f.mask f.shift)) ||| shlW w (value &&& f.mask) f.shift
  (new_val, new_val)

/-- modify_value(fieldvalue): runs `modify(fieldvalue.field, fieldvalue.value)`
and returns (stored register content, RegisterFieldValue of the original
field holding the returned new register word). -/
def regModifyValue (w reg : Nat) (fv : RegisterFieldValue) : Nat × RegisterFieldValue :=
  let r := regModify w reg fv.field fv.value
  (r.1, ⟨fv.field, r.2⟩)

/-- invariant of a RegisterFieldValue stated by the spec: the stored value
has no bits outside the field's (unshifted) stored mask. -/
def RegisterFieldValue.inv (fv : RegisterFieldValue) : Prop :=
  fv.value &&& fv.field.mask = fv.value

instance (fv : RegisterFieldValue) : Decidable fv.inv := by
  unfold RegisterFieldValue.inv
  infer_instance

/-! Helper lemmas about the `w`-bit arithmetic. -/

theorem checkedShl_eq_shlW (w x s : Nat) : checkedShl w x s = shlW w x s := by
  unfold checkedShl shlW
  by_cases h : s < w
  · simp [h]
  · have hw : 2 ^ w ∣ x <<< s := by
      rw [Nat.shiftLeft_eq]
      exact Dvd.dvd.mul_left (pow_dvd_pow 2 (Nat.le_of_not_lt h)) x
    simp [h, Nat.eq_zero_of_dvd_of_lt, Nat.mod_eq_zero_of_dvd hw]

theorem shlW_lt (w x s : Nat) : shlW w x s < 2 ^ w :=
  Nat.mod_lt _ (Nat.pos_pow_of_pos w (by decide))

theorem shlW_eq_of_fit {w x s : Nat} (hs : s ≤ w) (hx : x < 2 ^ (w - s)) :
    shlW w x s = x <<< s := by
  unfold shlW
  apply Nat.mod_eq_of_lt
  rw [Nat.shiftLeft_eq]
  calc x * 2 ^ s < 2 ^ (w - s) * 2 ^ s := by
        exact (Nat.mul_lt_mul_right (Nat.pos_pow_of_pos s (by decide))).mpr hx
    _ = 2 ^ w := by rw [← pow_add, Nat.sub_add_cancel hs]

theorem validFor_bounds {w : Nat} {f : RegisterField} (h : f.validFor w) :
    f.shift ≤ w ∧ f.mask < 2 ^ (w - f.shift) := by
  unfold RegisterField.validFor maskWidth at h
  constructor
  · omega
  · exact Nat.size_le.mp (by omega)

theorem testBit_shlW (w x s i : Nat) :
    (shlW w x s).testBit i = (decide (i < w) && (decide (s ≤ i) && x.testBit (i - s))) := by
  unfold shlW
  rw [Nat.testBit_mod_two_pow, Nat.testBit_shiftLeft]

theorem testBit_notW (w x i : Nat) :
    (notW w x).testBit i = (decide (i < w) ^^ x.testBit i) := by
  unfold notW
  rw [Nat.testBit_xor, Nat.testBit_two_pow_sub_one]

theorem land_mask_idem (v m : Nat) : (v &&& m) &&& m = v &&& m := by
  apply Nat.eq_of_testBit_eq
  intro i
  simp [Nat.testBit_land, Bool.and_assoc]

theorem validFor_of_bounds {w : Nat} {f : RegisterField}
    (hs : f.shift ≤ w) (hm : f.mask < 2 ^ (w - f.shift)) : f.validFor w := by
  unfold RegisterField.validFor maskWidth
  have := Nat.size_le.mpr hm
  omega

theorem asU32_eq {s : Nat} (h : s < 2 ^ 32) : asU32 s = s :=
  Nat.mod_eq_of_lt h

theorem width_bounds {w : Nat} (hw : w ∈ registerTypeWidths) : 0 < w ∧ w ≤ 64 := by
  unfold registerTypeWidths at hw
  simp only [List.mem_cons, List.not_mem_nil, or_false] at hw
  omega

theorem posMask_eq_shlW (w : Nat) (f : RegisterField) (hs : f.shift < 2 ^ 32) :
    f.posMask w = shlW w f.mask f.shift := by
  rw [RegisterField.posMask, asU32_eq hs, checkedShl_eq_shlW]

theorem checkedShl_lt (w x s : Nat) (hw : 0 < w) : checkedShl w x s < 2 ^ w := by
  rw [checkedShl_eq_shlW]
  exact shlW_lt w x s

theorem testBit_high_false {w x i : Nat} (hx : x < 2 ^ w) (hi : ¬ i < w) :
    x.testBit i = false :=
  Nat.testBit_lt_two_pow
    (lt_of_lt_of_le hx (Nat.pow_le_pow_right (by decide) (Nat.le_of_not_lt hi)))

theorem inv_le {fv : RegisterFieldValue} (h : fv.inv) :
    fv.value ≤ fv.field.mask :=
  h ▸ Nat.and_le_right

theorem land_lor_absorb {x mx y my : Nat}
    (hx : x &&& mx = x) (hy : y &&& my = y) :
    (x ||| y) &&& (mx ||| my) = x ||| y := by
  apply Nat.eq_of_testBit_eq
  intro i
  have hx' := congrArg (fun n => Nat.testBit n i) hx
  have hy' := congrArg (fun n => Nat.testBit n i) hy
  simp only [Nat.testBit_land, Nat.testBit_lor] at hx' hy' ⊢
  cases h1 : x.testBit i <;> cases h2 : y.testBit i <;> simp_all

theorem land_land_absorb {x mx y my : Nat}
    (hx : x &&& mx = x) (hy : y &&& my = y) :
    (x &&& y) &&& (mx &&& my) = x &&& y := by
  apply Nat.eq_of_testBit_eq
  intro i
  have hx' := congrArg (fun n => Nat.testBit n i) hx
  have hy' := congrArg (fun n => Nat.testBit n i) hy
  simp only [Nat.testBit_land] at hx' hy' ⊢
  cases h1 : x.testBit i <;> cases h2 : y.testBit i <;> simp_all

theorem raw_land_posMask {w : Nat} {fv : RegisterFieldValue} (h : fv.inv) :
    fv.raw_value w &&& fv.posMask w = fv.raw_value w := by
  rw [RegisterFieldValue.raw_value, RegisterFieldValue.posMask, RegisterField.posMask,
    checkedShl_eq_shlW, checkedShl_eq_shlW]
  apply Nat.eq_of_testBit_eq
  intro i
  simp only [Nat.testBit_land]
  rw [testBit_shlW, testBit_shlW]
  cases h1 : decide (i < w) <;> cases h2 : decide (asU32 fv.field.shift ≤ i) <;>
    simp_all
  have := congrArg (fun n => Nat.testBit n (i - asU32 fv.field.shift)) h
  simp only [Nat.testBit_land] at this
  cases hv : fv.value.testBit (i - asU32 fv.field.shift) <;> simp_all

theorem modify_frame {w reg : Nat} (hreg : reg < 2 ^ w)
    (f : RegisterField) (v : Nat) (hs32 : f.shift < 2 ^ 32) {i : Nat}
    (hi : (f.posMask w).testBit i = false) :
    ((regModify w reg f v).1).testBit i = reg.testBit i := by
  rw [posMask_eq_shlW w f hs32, testBit_shlW] at hi
  show ((reg &&& notW w (shlW w f.mask f.shift)) |||
      shlW w (v &&& f.mask) f.shift).testBit i = reg.testBit i
  simp only [Nat.testBit_lor, Nat.testBit_land, testBit_notW, testBit_shlW]
  by_cases hiw : i < w
  · simp only [hiw, decide_True, Bool.true_and] at hi ⊢
    cases h2 : decide (f.shift ≤ i) <;> simp_all
  · have h1 : reg.testBit i = false := testBit_high_false hreg hiw
    simp [hiw, h1]

theorem write_outside_zero (w : Nat) (f : RegisterField) (v : Nat)
    (hs32 : f.shift < 2 ^ 32) {i : Nat}
    (hi : (f.posMask w).testBit i = false) :
    (regWrite w f v).testBit i = false := by
  rw [posMask_eq_shlW w f hs32, testBit_shlW] at hi
  unfold regWrite
  rw [testBit_shlW, Nat.testBit_land]
  cases h1 : decide (i < w) <;> cases h2 : decide (f.shift ≤ i) <;> simp_all

end MMIO

namespace MMIO

/-- C6: for every field and every value v, constructing
RegisterFieldValue::new(field, v) and then calling value() yields
`v & mask` with mask the field's unshifted mask; bits of v outside the
field's width are silently discarded and construction is total. -/
theorem new_value_masks (f : RegisterField) (v : Nat) :
    (RegisterFieldValue.new f v).value = v &&& f.mask := rfl

/-- counterexample for C7: the code casts the shift to u32 before
checked_shl (lib.rs:235), so on u64 the oversized shift `2 ^ 32` wraps to
a shift of 0 and mask() returns the mask itself — not the saturated 0 the
claim asserts for every oversized shift. -/
theorem posMask_saturation_cex :
    64 ≤ 2 ^ 32 ∧
    (RegisterField.new 1 (2 ^ 32)).posMask 64 = 1 ∧
    (RegisterField.new 1 (2 ^ 32)).posMask 64 ≠ 0 :=
  ⟨by decide, by decide, by decide⟩

/-- C7 amended: RegisterField::new(m, s).mask() returns the in-type shift
`m << s` when s is below the bit width of T, saturates to 0 (neither
wrapping nor panicking) for an oversized shift below the u32 cast boundary
`2 ^ 32`, and equals the exact `m << s` for every valid pair with
shift + width(mask) ≤ bit width; a shift of `2 ^ 32` or more is first
wrapped modulo `2 ^ 32` by the `as u32` cast. -/
theorem posMask_spec (w : Nat) (hw : w ∈ registerTypeWidths) (m s : Nat) :
    (s < w → (RegisterField.new m s).posMask w = shlW w m s) ∧
    (w ≤ s → s < 2 ^ 32 → (RegisterField.new m s).posMask w = 0) ∧
    ((RegisterField.new m s).validFor w → (RegisterField.new m s).posMask w = m <<< s) := by
  have h64 := (width_bounds hw).2
  refine ⟨fun h => ?_, fun h h32 => ?_, fun h => ?_⟩
  · have hs32 : s < 2 ^ 32 := lt_of_lt_of_le (lt_of_lt_of_le h h64) (by decide)
    rw [posMask_eq_shlW w _ hs32]
    rfl
  · show checkedShl w m (asU32 s) = 0
    rw [asU32_eq h32]
    unfold checkedShl
    simp [Nat.not_lt.mpr h]
  · obtain ⟨hs, hm⟩ := validFor_bounds h
    have hs32 : s < 2 ^ 32 := lt_of_le_of_lt (le_trans hs h64) (by decide)
    rw [posMask_eq_shlW w _ hs32]
    exact shlW_eq_of_fit hs hm

/-- witness for C7 at T = u16, mask 0xF, shift 8. -/
theorem posMask_spec_witness :
    (RegisterField.new 0xF 8).posMask 16 = 0xF <<< 8 :=
  (posMask_spec 16 (by decide) 0xF 8).2.2
    (validFor_of_bounds (by decide) (by decide))

/-- C2: on a readable and writable register, writing a valid field and then
reading the same field back yields the original field-local masked value,
`read(write(field, v)) = v & mask`. -/
theorem write_read_roundtrip (w : Nat) (hw : w ∈ registerTypeWidths)
    (f : RegisterField) (hf : f.validFor w) (v : Nat) :
    regRead (regWrite w f v) f = v &&& f.mask := by
  obtain ⟨hs, hm⟩ := validFor_bounds hf
  unfold regRead regWrite
  rw [shlW_eq_of_fit hs (lt_of_le_of_lt Nat.and_le_right hm)]
  rw [Nat.shiftLeft_eq, Nat.shiftRight_eq_div_pow,
    Nat.mul_div_cancel _ (Nat.pos_pow_of_pos _ (by decide))]
  exact land_mask_idem v f.mask

/-- witness for C2 at T = u16, mask 0xF, shift 8, v = 0xC. -/
theorem write_read_roundtrip_witness :
    regRead (regWrite 16 (RegisterField.new 0xF 8) 0xC) (RegisterField.new 0xF 8) =
      0xC &&& 0xF :=
  write_read_roundtrip 16 (by decide) (RegisterField.new 0xF 8)
    (validFor_of_bounds (by decide) (by decide)) 0xC

/-- C9: concrete scenario on a 16-bit register initialized to 0x0F0F with a
field of unshifted mask 0xF at shift 8: read_value(field).value() is 0xF;
modify_value with field value 8 stores 0x080F, on which read(field) yields
0x8; a subsequent modify(field, 0xA) stores 0x0A0F. -/
theorem concrete_modify_scenario :
    (regReadValue 0x0F0F (RegisterField.new 0xF 8)).value = 0xF ∧
    (regModifyValue 16 0x0F0F
        (RegisterFieldValue.new (RegisterField.new 0xF 8) 0x8)).1 = 0x080F ∧
    regRead (regModifyValue 16 0x0F0F
        (RegisterFieldValue.new (RegisterField.new 0xF 8) 0x8)).1
      (RegisterField.new 0xF 8) = 0x8 ∧
    (regModify 16 0x080F (RegisterField.new 0xF 8) 0xA).1 = 0x0A0F := by
  decide

/-- C10: modify_value returns a RegisterFieldValue carrying the original
field whose stored value (as returned by the value() accessor) is the whole
new register word, the same value modify returns and stores — shown at a
concrete input to differ from the field-local masked value. -/
theorem modify_value_returns_whole_word (w reg : Nat) (fv : RegisterFieldValue) :
    (regModifyValue w reg fv).2.field = fv.field ∧
    (regModifyValue w reg fv).2.value = (regModify w reg fv.field fv.value).2 ∧
    (regModifyValue w reg fv).2.value = (regModifyValue w reg fv).1 ∧
    ((regModifyValue 16 0x0F0F
        (RegisterFieldValue.new (RegisterField.new 0xF 8) 0x8)).2.value ≠
      regRead (regModifyValue 16 0x0F0F
          (RegisterFieldValue.new (RegisterField.new 0xF 8) 0x8)).1
        (RegisterField.new 0xF 8)) :=
  ⟨rfl, rfl, rfl, by decide⟩

/-- C1: on a ReadWrite register holding old, modify(field, v) stores
`(old & !(mask << shift)) | ((v & mask) << shift)`, returns exactly the
stored value, and every bit outside field.mask() is bit-for-bit identical
to the corresponding bit of old. -/
theorem modify_spec (w : Nat) (hw : w ∈ registerTypeWidths)
    (reg : Nat) (hreg : reg < 2 ^ w)
    (f : RegisterField) (hf : f.validFor w) (v : Nat) :
    (regModify w reg f v).1 =
      (reg &&& notW w (shlW w f.mask f.shift)) ||| shlW w (v &&& f.mask) f.shift ∧
    (regModify w reg f v).2 = (regModify w reg f v).1 ∧
    ∀ i, (f.posMask w).testBit i = false →
      ((regModify w reg f v).1).testBit i = reg.testBit i := by
  have hs32 : f.shift < 2 ^ 32 :=
    lt_of_le_of_lt (le_trans (validFor_bounds hf).1 (width_bounds hw).2) (by decide)
  exact ⟨rfl, rfl, fun _ hi => modify_frame hreg f v hs32 hi⟩

/-- witness for C1: a bit outside the field (bit 0, field mask 0xF at
shift 8 of a u16 register holding 0x0F0F) is preserved by modify. -/
theorem modify_spec_witness :
    ((regModify 16 0x0F0F (RegisterField.new 0xF 8) 0x8).1).testBit 0 =
      (0x0F0F : Nat).testBit 0 :=
  (modify_spec 16 (by decide) 0x0F0F (by decide) (RegisterField.new 0xF 8)
    (validFor_of_bounds (by decide) (by decide)) 0x8).2.2 0 (by decide)

/-- C3: write(field, v) stores exactly `(v & mask) << shift` independently
of the previous register content (the definition takes no old content),
so every bit outside the field's positioned mask is zero afterwards;
concretely on a u16 register, write_value of field value 0x8 for field
mask 0xF at shift 8 stores 0x0800 and write(field, 0xC) stores 0x0C00,
whatever the register held before (here 0x0F0F). -/
theorem write_spec (w : Nat) (hw : w ∈ registerTypeWidths)
    (f : RegisterField) (hf : f.validFor w) (v : Nat) :
    regWrite w f v = shlW w (v &&& f.mask) f.shift ∧
    (∀ i, (f.posMask w).testBit i = false → (regWrite w f v).testBit i = false) ∧
    regWriteValue 16 (RegisterFieldValue.new (RegisterField.new 0xF 8) 0x8) = 0x0800 ∧
    regWrite 16 (RegisterField.new 0xF 8) 0xC = 0x0C00 := by
  have hs32 : f.shift < 2 ^ 32 :=
    lt_of_le_of_lt (le_trans (validFor_bounds hf).1 (width_bounds hw).2) (by decide)
  exact ⟨rfl, fun _ hi => write_outside_zero w f v hs32 hi, by decide, by decide⟩

/-- witness for C3: bit 0 (outside field mask 0xF at shift 8) is zero
after write on a u16 register. -/
theorem write_spec_witness :
    (regWrite 16 (RegisterField.new 0xF 8) 0xC).testBit 0 = false :=
  (write_spec 16 (by decide) (RegisterField.new 0xF 8)
    (validFor_of_bounds (by decide) (by decide)) 0xC).2.1 0 (by decide)

/-- counterexample for C4: the RegisterFieldValue produced by modify_value
on a u16 register holding 0x0F0F (field mask 0xF at shift 8, field value
0x8) stores the whole register word 0x080F, which exceeds the field's
unshifted mask 0xF — the claimed invariant value ≤ mask fails. -/
theorem fieldvalue_inv_cex :
    ¬ ((regModifyValue 16 0x0F0F
        (RegisterFieldValue.new (RegisterField.new 0xF 8) 0x8)).2.value ≤
      (regModifyValue 16 0x0F0F
        (RegisterFieldValue.new (RegisterField.new 0xF 8) 0x8)).2.field.mask) := by
  decide

/-- C4 amended: RegisterFieldValues produced by RegisterFieldValue::new,
read_value, and bitwise OR/AND composition of values satisfying the
invariant, have no value bits outside their field's (unshifted) stored
mask, hence value ≤ mask; modify_value is excluded, since it stores the
whole new register word. -/
theorem fieldvalue_inv (f : RegisterField) (v reg w : Nat)
    (a b : RegisterFieldValue) (ha : a.inv) (hb : b.inv) :
    ((RegisterFieldValue.new f v).inv ∧ (RegisterFieldValue.new f v).value ≤ f.mask) ∧
    ((regReadValue reg f).inv ∧ (regReadValue reg f).value ≤ f.mask) ∧
    ((a.bitor w b).inv ∧ (a.bitor w b).value ≤ (a.bitor w b).field.mask) ∧
    ((a.bitand w b).inv ∧ (a.bitand w b).value ≤ (a.bitand w b).field.mask) := by
  have hnew : (RegisterFieldValue.new f v).inv := land_mask_idem v f.mask
  have hread : (regReadValue reg f).inv := land_mask_idem (reg >>> f.shift) f.mask
  have hor : (a.bitor w b).inv :=
    land_lor_absorb (raw_land_posMask ha) (raw_land_posMask hb)
  have hand : (a.bitand w b).inv :=
    land_land_absorb (raw_land_posMask ha) (raw_land_posMask hb)
  exact ⟨⟨hnew, inv_le hnew⟩, ⟨hread, inv_le hread⟩,
    ⟨hor, inv_le hor⟩, ⟨hand, inv_le hand⟩⟩

/-- witness for C4 at two concrete invariant-satisfying field values over
u16: their OR satisfies the invariant. -/
theorem fieldvalue_inv_witness :
    ((RegisterFieldValue.new (RegisterField.new 0xF 8) 0x5).bitor 16
      (RegisterFieldValue.new (RegisterField.new 0x3 0) 0x2)).inv :=
  (fieldvalue_inv (RegisterField.new 0xF 8) 0x5 0x0F0F 16
    (RegisterFieldValue.new (RegisterField.new 0xF 8) 0x5)
    (RegisterFieldValue.new (RegisterField.new 0x3 0) 0x2)
    (by decide) (by decide)).2.2.1.1

/-- C5: the OR of two RegisterFieldValues over the same register width is a
RegisterFieldValue whose field has mask the union of both positioned masks
and shift 0, and whose value is the OR of both raw values; and for two
non-overlapping valid fields with fitting values, the raw value of the
composition is `(v1 << shift1) | (v2 << shift2)`. -/
theorem bitor_compose (w : Nat) (hw : w ∈ registerTypeWidths)
    (a b : RegisterFieldValue) (f1 f2 : RegisterField) (v1 v2 : Nat)
    (h1 : f1.validFor w) (h2 : f2.validFor w)
    (hv1 : v1 &&& f1.mask = v1) (hv2 : v2 &&& f2.mask = v2)
    (hdisj : f1.posMask w &&& f2.posMask w = 0) :
    (a.bitor w b).field.mask = a.field.posMask w ||| b.field.posMask w ∧
    (a.bitor w b).field.shift = 0 ∧
    (a.bitor w b).value = a.raw_value w ||| b.raw_value w ∧
    ((RegisterFieldValue.new f1 v1).bitor w
        (RegisterFieldValue.new f2 v2)).raw_value w =
      (v1 <<< f1.shift) ||| (v2 <<< f2.shift) := by
  refine ⟨rfl, rfl, rfl, ?_⟩
  obtain ⟨hw0, h64⟩ := width_bounds hw
  obtain ⟨hs1, hm1⟩ := validFor_bounds h1
  obtain ⟨hs2, hm2⟩ := validFor_bounds h2
  have hrawA : (RegisterFieldValue.new f1 v1).raw_value w = v1 <<< f1.shift := by
    show checkedShl w (v1 &&& f1.mask) (asU32 f1.shift) = v1 <<< f1.shift
    rw [asU32_eq (lt_of_le_of_lt (le_trans hs1 h64) (by decide)), hv1,
      checkedShl_eq_shlW]
    exact shlW_eq_of_fit hs1 (lt_of_le_of_lt (hv1 ▸ Nat.and_le_right) hm1)
  have hrawB : (RegisterFieldValue.new f2 v2).raw_value w = v2 <<< f2.shift := by
    show checkedShl w (v2 &&& f2.mask) (asU32 f2.shift) = v2 <<< f2.shift
    rw [asU32_eq (lt_of_le_of_lt (le_trans hs2 h64) (by decide)), hv2,
      checkedShl_eq_shlW]
    exact shlW_eq_of_fit hs2 (lt_of_le_of_lt (hv2 ▸ Nat.and_le_right) hm2)
  have hlt : (RegisterFieldValue.new f1 v1).raw_value w |||
      (RegisterFieldValue.new f2 v2).raw_value w < 2 ^ w :=
    Nat.or_lt_two_pow (checkedShl_lt w _ _ hw0) (checkedShl_lt w _ _ hw0)
  show checkedShl w ((RegisterFieldValue.new f1 v1).raw_value w |||
      (RegisterFieldValue.new f2 v2).raw_value w) (asU32 0) = _
  rw [asU32_eq (by decide), checkedShl_eq_shlW]
  unfold shlW
  rw [Nat.shiftLeft_zero, Nat.mod_eq_of_lt hlt, hrawA, hrawB]

/-- witness for C5: two disjoint u16 fields, mask 0xF at shift 8 with
value 0x5 and mask 0x3 at shift 0 with value 0x2. -/
theorem bitor_compose_witness :
    ((RegisterFieldValue.new (RegisterField.new 0xF 8) 0x5).bitor 16
        (RegisterFieldValue.new (RegisterField.new 0x3 0) 0x2)).raw_value 16 =
      (0x5 <<< 8) ||| (0x2 <<< 0) :=
  (bitor_compose 16 (by decide)
    (RegisterFieldValue.new (RegisterField.new 0xF 8) 0x5)
    (RegisterFieldValue.new (RegisterField.new 0x3 0) 0x2)
    (RegisterField.new 0xF 8) (RegisterField.new 0x3 0) 0x5 0x2
    (validFor_of_bounds (by decide) (by decide))
    (validFor_of_bounds (by decide) (by decide))
    (by decide) (by decide) (by decide)).2.2.2

/-- counterexample for C8: a RegisterFieldValue produced by modify_value
(field mask 0xF at shift 0, u16 register holding 0xFF0) stores the whole
word 0xFF0; write_value of it stores (0xFF0 & 0xF) << 0 = 0, while its
raw_value() is 0xFF0. -/
theorem write_value_raw_cex :
    regWriteValue 16 (regModifyValue 16 0xFF0
        (RegisterFieldValue.new (RegisterField.new 0xF 0) 0)).2 ≠
      (regModifyValue 16 0xFF0
        (RegisterFieldValue.new (RegisterField.new 0xF 0) 0)).2.raw_value 16 := by
  decide

/-- C8 amended: write_value(fv) stores exactly fv.raw_value() for every
field value whose shift is below the bit width of T and whose stored value
has no bits outside the field's unshifted mask (the invariant maintained
by every producer except modify_value). -/
theorem write_value_raw (w : Nat) (hw : w ∈ registerTypeWidths)
    (fv : RegisterFieldValue) (hs : fv.field.shift < w) (hinv : fv.inv) :
    regWriteValue w fv = fv.raw_value w := by
  have hs32 : fv.field.shift < 2 ^ 32 :=
    lt_of_le_of_lt (le_trans (le_of_lt hs) (width_bounds hw).2) (by decide)
  unfold regWriteValue regWrite RegisterFieldValue.raw_value
  rw [hinv, asU32_eq hs32, checkedShl_eq_shlW]

/-- witness for C8 at a u16 field value built by the constructor. -/
theorem write_value_raw_witness :
    regWriteValue 16 (RegisterFieldValue.new (RegisterField.new 0xF 8) 0x8) =
      (RegisterFieldValue.new (RegisterField.new 0xF 8) 0x8).raw_value 16 :=
  write_value_raw 16 (by decide)
    (RegisterFieldValue.new (RegisterField.new 0xF 8) 0x8)
    (by decide) (by decide)

end MMIO
